import Mathlib

/-!
Verification of the `erd` directory-tree renderer against its specification.

The Python sources (`erd.py`, `gitignore.py`) are shallowly embedded below:
pure functions become Lean functions, the class-attribute mutation of
`GitignoreParser` becomes an explicit state type, exceptions become `Except`,
and the external collaborators (the `wcmatch`/`fnmatch` glob engines, the
`dircolors` display decorator, the filesystem) become explicit parameters.
-/

/-! ## String helpers (modelling Python str/os.path primitives) -/

/-- Code-point comparison of a single character, as Python compares characters
inside strings (by code point). -/
def charLtB (x y : Char) : Bool := x.toNat < y.toNat

/-- Lexicographic `<=` on character lists, Python's string comparison. -/
def strLeB : List Char → List Char → Bool
  | [], _ => true
  | _ :: _, [] => false
  | x :: xs, y :: ys =>
    if charLtB x y then true
    else if charLtB y x then false
    else strLeB xs ys

/-- `a.rstrip("/")` in Python: remove every trailing `'/'`. -/
def rstripSlash (s : String) : String :=
  ⟨(s.data.reverse.dropWhile (· == '/')).reverse⟩

/-- `line.rstrip("\n")` in Python: remove every trailing newline. -/
def rstripNL (s : String) : String :=
  ⟨(s.data.reverse.dropWhile (· == '\n')).reverse⟩

/-- Boolean list-prefix test on characters. -/
def isPrefixB : List Char → List Char → Bool
  | [], _ => true
  | _ :: _, [] => false
  | x :: xs, y :: ys => x == y && isPrefixB xs ys

/-- Python's `s.endswith(suffix)`, computed on the character lists. -/
def strEndsWith (s suf : String) : Bool := isPrefixB suf.data.reverse s.data.reverse

/-- `os.path.split` (posixpath): split at the last `'/'`; the head keeps no
trailing slashes unless it consists only of slashes. -/
def pathSplit (s : String) : String × String :=
  let rev := s.data.reverse
  let tail := (rev.takeWhile (· ≠ '/')).reverse
  let head := (rev.dropWhile (· ≠ '/')).reverse
  let head := if head.all (· == '/') then head else (head.reverse.dropWhile (· == '/')).reverse
  (⟨head⟩, ⟨tail⟩)

/-- `os.path.dirname`. -/
def dirnameStr (s : String) : String := (pathSplit s).1

/-- `os.path.join(p, n)` for a non-absolute second component. -/
def joinPath (p n : String) : String :=
  if p = "" then n
  else if strEndsWith p "/" then p ++ n
  else p ++ "/" ++ n

/-- Sort a list of strings with Python string order (used for
`sorted(glob.glob(...))`). -/
def sortStrings (l : List String) : List String :=
  List.insertionSort (fun a b => strLeB a.data b.data = true) l

/-! ## Ignore rules and the `GitignoreParser` matching core (erd.py 24-61)

An `igittigitt.IgnoreRule` is reduced to the two attributes the program
reads: its glob pattern (already anchored at an absolute base directory by
`get_rules_from_git_pattern`) and its negation flag. -/

structure IgnoreRule where
  pattern_glob : String
  is_negation_rule : Bool
deriving DecidableEq

/-- A total order on rules (Python's `sorted` over `IgnoreRule` values);
its exact shape is irrelevant to matching, which is an `any` over the list. -/
def ruleLE (a b : IgnoreRule) : Bool :=
  if a.pattern_glob = b.pattern_glob then !a.is_negation_rule || b.is_negation_rule
  else strLeB a.pattern_glob.data b.pattern_glob.data

/-- Python's `sorted(set(rules))`: deduplicate, then sort. -/
def sortedSet (l : List IgnoreRule) : List IgnoreRule :=
  List.insertionSort (fun a b => ruleLE a b = true) l.dedup

/-- The external glob/regex engine: `tm pat p` holds when the single
translated pattern `pat` matches the path `p` (the semantics of one
alternative produced by `wcmatch.glob.translate`). -/
abbrev TranslateMatch := String → String → Bool

/-- `re.match("|".join(regexes), p)` (erd.py 37-39, 44-45): an alternation
of the listed patterns.  `"|".join([])` is the empty string, and
`re.match("", p)` succeeds on every input, so the empty list matches
every path. -/
def joinedMatch (tm : TranslateMatch) : List String → String → Bool
  | [], _ => true
  | pats@(_ :: _), p => pats.any fun g => tm g p

/-- The matching state of `GitignoreParser`: its two rule lists. -/
structure GitignoreParser where
  ignore_rules : List IgnoreRule
  negate_rules : List IgnoreRule
deriving DecidableEq

/-- `GitignoreParser._compile_patterns` (erd.py 29-40): sort/dedup both rule
lists, translate each pattern, and join each side into one alternation.
The compiled result is represented by the two pattern lists, interpreted
through `joinedMatch`. -/
def GitignoreParser.compile_patterns (g : GitignoreParser) : List String × List String :=
  ((sortedSet g.ignore_rules).map (·.pattern_glob),
   (sortedSet g.negate_rules).map (·.pattern_glob))

/-- `GitignoreParser.match` (erd.py 42-46): the path matches iff it matches
the joined ignore regex and then fails the joined negate regex.  The path is
used exactly as passed; no relativisation happens anywhere in the function. -/
def GitignoreParser.«match» (tm : TranslateMatch) (g : GitignoreParser) (file_path : String) : Bool :=
  let pr := g.compile_patterns
  if joinedMatch tm pr.1 file_path then !(joinedMatch tm pr.2 file_path) else false

/-- Modelled from the spec (§4.2 step 4), for comparison with the code: the
spec requires the queried path to be tested *as relative to the discovered
root* before matching.  `os.path.relpath(p, root)` for a descendant path. -/
def relativeToRoot (root p : String) : String :=
  let r := root ++ "/"
  if isPrefixB r.data p.data then ⟨p.data.drop r.data.length⟩ else p

/-- Modelled from the spec: the ignore query as the spec states it — match
against the path made relative to the root. -/
def specMatchRelative (tm : TranslateMatch) (g : GitignoreParser) (root p : String) : Bool :=
  let pr := g.compile_patterns
  let rel := relativeToRoot root p
  if joinedMatch tm pr.1 rel then !(joinedMatch tm pr.2 rel) else false

/-- A concrete external glob engine: a translated pattern matches exactly the
path equal to its text (the behaviour of a literal glob with no wildcards,
anchored at an absolute base directory as `igittigitt` produces). -/
def tmLiteral : TranslateMatch := fun pat p => pat == p

/-- A concrete parser: one ignore rule for the literal absolute path
`/r/a.log`, one negate rule that matches nothing relevant. -/
def gLit : GitignoreParser :=
  { ignore_rules := [{ pattern_glob := "/r/a.log", is_negation_rule := false }],
    negate_rules := [{ pattern_glob := "zzz", is_negation_rule := true }] }

/-- A parser with one ignore rule and no negate rules. -/
def gNoNeg : GitignoreParser :=
  { ignore_rules := [{ pattern_glob := "/r/x", is_negation_rule := false }],
    negate_rules := [] }

/-! ## Python attribute semantics of the rule lists (erd.py 24-27, 48-53)

`ignore_rules`, `negate_rules` are initialised in the class body, so they are
class attributes.  `self.xxx.append(...)` mutates whichever list attribute
lookup finds: the instance's own list if one exists, otherwise the shared
class list.  `self.xxx = sorted(set(self.xxx))` in `_compile_patterns`
*assigns*, installing an instance attribute that shadows the class one from
then on.  Instances are named by `Nat` identities. -/

structure PyAttrState where
  classIgnore : List IgnoreRule
  classNegate : List IgnoreRule
  instIgnore : Nat → Option (List IgnoreRule)
  instNegate : Nat → Option (List IgnoreRule)

/-- The list instance `i` reads as `self.ignore_rules`. -/
def observedIgnore (st : PyAttrState) (i : Nat) : List IgnoreRule :=
  (st.instIgnore i).getD st.classIgnore

/-- The list instance `i` reads as `self.negate_rules`. -/
def observedNegate (st : PyAttrState) (i : Nat) : List IgnoreRule :=
  (st.instNegate i).getD st.classNegate

/-- `GitignoreParser._add_rule` (erd.py 48-53) executed on instance `i`:
append to the negate or ignore list found by attribute lookup.  (The
`self._patterns = None` cache invalidation does not touch the rule lists.) -/
def addRuleOn (st : PyAttrState) (i : Nat) (r : IgnoreRule) : PyAttrState :=
  if r.is_negation_rule then
    match st.instNegate i with
    | some l => { st with instNegate := fun j => if j = i then some (l ++ [r]) else st.instNegate j }
    | none => { st with classNegate := st.classNegate ++ [r] }
  else
    match st.instIgnore i with
    | some l => { st with instIgnore := fun j => if j = i then some (l ++ [r]) else st.instIgnore j }
    | none => { st with classIgnore := st.classIgnore ++ [r] }

/-- The rule-list effect of `GitignoreParser._compile_patterns` (erd.py
30-31) on instance `i`: `self.ignore_rules = sorted(set(self.ignore_rules))`
(and likewise for negate) installs instance attributes shadowing the class
lists. -/
def compileOn (st : PyAttrState) (i : Nat) : PyAttrState :=
  { st with
    instIgnore := fun j => if j = i then some (sortedSet (observedIgnore st i)) else st.instIgnore j,
    instNegate := fun j => if j = i then some (sortedSet (observedNegate st i)) else st.instNegate j }

/-- The state at interpreter start: empty class lists, no instance attributes. -/
def pyStart : PyAttrState :=
  { classIgnore := [], classNegate := [], instIgnore := fun _ => none, instNegate := fun _ => none }

/-- A sample non-negation rule. -/
def rSample : IgnoreRule := { pattern_glob := "/r/x", is_negation_rule := false }

/-! ## Rule-file parsing with exceptions (erd.py 63-92) -/

/-- The Python exceptions relevant to rule-file reading. -/
inductive PyErr where
  | fileNotFound
  | permissionDenied
deriving DecidableEq

/-- The external filesystem read: `open(f).readlines()`, fallible. -/
abbrev ReadFile := String → Except PyErr (List String)

/-- The external `igittigitt.get_rules_from_git_pattern(line, base_dir)`. -/
abbrev RulesFromPattern := String → String → List IgnoreRule

/-- `GitignoreParser._add_rule` as a pure update of the rule lists (the
per-instance functional view used by the parsing pipeline). -/
def addRuleF (g : GitignoreParser) (r : IgnoreRule) : GitignoreParser :=
  if r.is_negation_rule then { g with negate_rules := g.negate_rules ++ [r] }
  else { g with ignore_rules := g.ignore_rules ++ [r] }

/-- `GitignoreParser.parse_rule_file` (erd.py 63-78): read the file (any
exception propagates), strip each line's trailing newline, turn it into
rules anchored at `base_dir` (defaulting to the file's directory), and add
each rule in order. -/
def parse_rule_file (rfp : RulesFromPattern) (readF : ReadFile) (g : GitignoreParser)
    (rule_file : String) (base_dir : Option String) : Except PyErr GitignoreParser :=
  let base := base_dir.getD (dirnameStr rule_file)
  match readF rule_file with
  | .error e => .error e
  | .ok lines =>
    .ok (lines.foldl (fun acc line => (rfp (rstripNL line) base).foldl addRuleF acc) g)

/-- `GitignoreParser.parse_rule_files` (erd.py 80-92): optionally parse the
default global ignore file, suppressing only `FileNotFoundError`; then parse
every discovered rule file in sorted order (the guard
`if not self.match(rule_file) or True:` is always true), with *no* exception
handling around the loop.  `globbed` is the raw `glob.glob` result. -/
def parse_rule_files (rfp : RulesFromPattern) (readF : ReadFile) (globbed : List String)
    (g : GitignoreParser) (base_dir : String) (add_default_patterns : Bool)
    (default_rule_file : String) : Except PyErr GitignoreParser :=
  let step1 : Except PyErr GitignoreParser :=
    if add_default_patterns then
      match parse_rule_file rfp readF g default_rule_file (some base_dir) with
      | .error .fileNotFound => .ok g
      | r => r
    else .ok g
  match step1 with
  | .error e => .error e
  | .ok g1 =>
    (sortStrings globbed).foldl
      (fun acc f =>
        match acc with
        | .error e => .error e
        | .ok gg => parse_rule_file rfp readF gg f none)
      (.ok g1)

/-- A filesystem in which the one discovered rule file is unreadable and the
default global ignore file is absent. -/
def readPerm : ReadFile := fun f =>
  if f = "/r/sub/.gitignore" then .error .permissionDenied
  else if f = "/cfg/git/gitignore" then .error .fileNotFound
  else .ok []

/-- A rule factory producing no rules (its output is irrelevant here). -/
def rfpNone : RulesFromPattern := fun _ _ => []

/-! ## Root discovery (erd.py 95-109; gitignore.py 49-92 is unused) -/

/-- An absolute directory path as its component list: `[]` is `/`,
`["r","s"]` is `/r/s`.  `os.path.dirname` is `dropLast`. -/
abbrev GPath := List String

/-- `find_git_toplevel` (erd.py 95-100): walk upward from `base_dir`
checking for a `.git` entry (`hasGit`), stopping only at the filesystem
root.  No environment variable, home directory, or ceiling directory is
consulted. -/
def find_git_toplevel (hasGit : GPath → Bool) (p : GPath) : Option GPath :=
  if hasGit p then some p
  else if h : p = [] then none
  else find_git_toplevel hasGit p.dropLast
termination_by p.length
decreasing_by
  have := List.length_pos.mpr h
  rw [List.length_dropLast]
  omega

/-- Modelled from the spec (§4.2 step 1, claim C5): walk upward testing each
level for the marker, failing upon reaching a terminal boundary (`/`, the
home directory, or a ceiling directory). -/
def specWalk (home : GPath) (ceilings : List GPath) (hasGit : GPath → Bool) (p : GPath) :
    Option GPath :=
  if hasGit p then some p
  else if h : p = [] ∨ p = home ∨ p ∈ ceilings then none
  else specWalk home ceilings hasGit p.dropLast
termination_by p.length
decreasing_by
  have hne : p ≠ [] := fun hc => h (Or.inl hc)
  have := List.length_pos.mpr hne
  rw [List.length_dropLast]
  omega

/-- Modelled from the spec (claim C5): root discovery first honours an
override environment variable — an explicit work tree, or the parent of an
explicit control directory — and otherwise walks upward with terminal
boundaries. -/
def specFindRoot (gitWorkTree gitDirVar : Option GPath) (home : GPath) (ceilings : List GPath)
    (hasGit : GPath → Bool) (start : GPath) : Option GPath :=
  match gitWorkTree with
  | some w => some w
  | none =>
    match gitDirVar with
    | some g => some g.dropLast
    | none => specWalk home ceilings hasGit start

/-- A marker layout: `/r/s` is a repository root. -/
def hasGitA : GPath → Bool := fun p => p == ["r", "s"]

/-- A marker layout: `/home` is a repository root (above the home directory
`/home/u`). -/
def hasGitB : GPath → Bool := fun p => p == ["home"]

/-! ## Filesystem entities (erd.py 112-156)

The external directory accessor is embedded as an inductive tree: a `dir`
node carries its `os.listdir` output in listing order; other nodes carry
what `os.lstat` and `os.access`/`os.readlink` would report. -/

inductive FS where
  | dir (entries : List (String × FS))
  | regular (executable : Bool)
  | symlink (target : String)
  | fifo
  | sock
  | door

/-- One `Entity` (erd.py 112-117): the path, its `os.path.split`, the
`preserve_path` flag, and the filesystem node behind it. -/
structure Entity where
  path : String
  dirname : String
  basename : String
  preserve_path : Bool
  node : FS

/-- `stat.S_ISDIR(self.stat.st_mode)` of the `lstat` result (symlinks are
not directories under `lstat`). -/
def isDirB (e : Entity) : Bool :=
  match e.node with
  | .dir _ => true
  | _ => false

/-- `Entity(os.path.join(self.path, child))` (erd.py 127). -/
def mkChild (e : Entity) (c : String × FS) : Entity :=
  let p := joinPath e.path c.1
  { path := p, dirname := (pathSplit p).1, basename := (pathSplit p).2,
    preserve_path := false, node := c.2 }

/-- The unsorted `os.listdir` view of a node's children; non-directories
have none (erd.py 123-128). -/
def Entity.childrenRaw (e : Entity) : List Entity :=
  match e.node with
  | .dir cs => cs.map (mkChild e)
  | _ => []

/-- The sort key comparison of erd.py 129:
`key=lambda e: (stat.S_ISDIR(...), e.basename)` under Python's ascending
tuple order — `False` sorts before `True`, so non-directories come first;
ties break by base name (code-point order). -/
def keyLE (a b : Entity) : Bool :=
  (!(isDirB a) && isDirB b) || ((isDirB a == isDirB b) && strLeB a.basename.data b.basename.data)

/-- `Entity.children` (erd.py 122-130): list, then stable-sort by the key.
Python's `list.sort` is a stable sort; any stable sort by the same total
preorder produces the same list, embedded here as insertion sort. -/
def Entity.children (e : Entity) : List Entity :=
  List.insertionSort (fun a b => keyLE a b = true) e.childrenRaw

/-- The external display decorator `DIRCOLORS.format(text, cwd=...)`. -/
abbrev Dircolors := String → Option String → String

/-- `Entity.format` (erd.py 132-156): decorate the base name (or the full
path when `preserve_path`), then append the kind suffix. -/
def Entity.format (d : Dircolors) (e : Entity) : String :=
  let cwd : Option String :=
    if e.preserve_path then none
    else if e.dirname ≠ "" then some e.dirname else none
  let base : String := if e.preserve_path then d e.path none else d e.basename cwd
  match e.node with
  | .dir _ => base ++ "/"
  | .regular ex => if ex then base ++ "*" else base
  | .fifo => base ++ "|"
  | .symlink t => base ++ "@ -> " ++ d t cwd
  | .sock => base ++ "="
  | .door => base ++ ">"

/-! ## PathMatch and PathFilter (erd.py 159-187) -/

/-- The external `fnmatch.fnmatch(name, pattern)`. -/
abbrev FnMatch := String → String → Bool

structure PathMatch where
  pattern : String
  is_dir : Bool
deriving DecidableEq

/-- `PathMatch.__init__` (erd.py 160-162): strip the trailing slash into a
directory-only flag. -/
def PathMatch.ofExpr (expression : String) : PathMatch :=
  { pattern := rstripSlash expression, is_dir := strEndsWith expression "/" }

/-- `PathMatch.__call__` (erd.py 164-167). -/
def PathMatch.call (fn : FnMatch) (pm : PathMatch) (e : Entity) : Bool :=
  if pm.is_dir = true ∧ isDirB e = false then false
  else fn e.basename pm.pattern

structure PathFilter where
  «include» : List PathMatch
  exclude : List PathMatch
  gitignore : Option GitignoreParser

/-- The include stage of `PathFilter.__call__` (erd.py 181-182): an empty
include list leaves `retain` at `True`. -/
def includeStage (fn : FnMatch) (pats : List PathMatch) (e : Entity) : Bool :=
  if pats ≠ [] then pats.any (fun pm => pm.call fn e) else true

/-- The exclude stage (erd.py 183-184). -/
def excludeStage (fn : FnMatch) (pats : List PathMatch) (e : Entity) (retain : Bool) : Bool :=
  if retain = true ∧ pats ≠ [] then !(pats.any fun pm => pm.call fn e) else retain

/-- The gitignore stage (erd.py 185-186), applied last. -/
def ignoreStage (tm : TranslateMatch) (gi : Option GitignoreParser) (e : Entity)
    (retain : Bool) : Bool :=
  match gi with
  | some g => if retain = true then !(GitignoreParser.«match» tm g e.path) else retain
  | none => retain

/-- `PathFilter.__call__` (erd.py 179-187): include, then exclude, then the
ignore index. -/
def PathFilter.call (fn : FnMatch) (tm : TranslateMatch) (f : PathFilter) (e : Entity) : Bool :=
  ignoreStage tm f.gitignore e (excludeStage fn f.exclude e (includeStage fn f.«include» e))

/-! ## The tree walk (erd.py 229-264) -/

/-- `prefix += "    " if last_sibling else "│   "`, guarded by
`if prefix or indent:` — Python string truthiness (erd.py 254-255). -/
def extendPre (pre ind : String) (last : Bool) : String :=
  if pre ≠ "" ∨ ind ≠ "" then (if last then pre ++ "    " else pre ++ "│   ") else pre

/-- The sibling iteration of erd.py 257-260: all children but the last get
the tee connector and `last_sibling = False`; the last gets the elbow and
`True`. -/
def annotate : List Entity → List (Entity × String × Bool)
  | [] => []
  | c :: rest =>
    match rest with
    | [] => [(c, "└── ", true)]
    | _ :: _ => (c, "├── ", false) :: annotate rest

theorem sizeOf_entry_lt {cs : List (String × FS)} {n : String} {fs : FS}
    (h : (n, fs) ∈ cs) : sizeOf fs < sizeOf (FS.dir cs) := by
  induction cs with
  | nil => cases h
  | cons a l ih =>
    rcases List.mem_cons.mp h with heq | hmem
    · obtain ⟨n', fs'⟩ := a
      obtain ⟨rfl, rfl⟩ := Prod.mk.injEq .. ▸ heq
      simp
      omega
    · have := ih hmem
      simp at this ⊢
      omega

theorem mem_childrenRaw_node_lt {e c : Entity} (h : c ∈ e.childrenRaw) :
    sizeOf c.node < sizeOf e.node := by
  rcases e with ⟨p, dn, bn, pp, node⟩
  cases node with
  | dir cs =>
    simp only [Entity.childrenRaw] at h
    rcases List.mem_map.mp h with ⟨q, hq, rfl⟩
    obtain ⟨n, fs⟩ := q
    exact sizeOf_entry_lt hq
  | regular ex => simp [Entity.childrenRaw] at h
  | symlink t => simp [Entity.childrenRaw] at h
  | fifo => simp [Entity.childrenRaw] at h
  | sock => simp [Entity.childrenRaw] at h
  | door => simp [Entity.childrenRaw] at h

theorem mem_children_node_lt {e c : Entity} {filt : Entity → Bool}
    (h : c ∈ (Entity.children e).filter filt) : sizeOf c.node < sizeOf e.node := by
  have h1 : c ∈ Entity.children e := List.mem_of_mem_filter h
  have h2 : c ∈ e.childrenRaw := ((List.perm_insertionSort _ _).mem_iff).mp h1
  exact mem_childrenRaw_node_lt h2

theorem mem_annotate {l : List Entity} {x : Entity × String × Bool}
    (h : x ∈ annotate l) : x.1 ∈ l := by
  induction l with
  | nil => simp [annotate] at h
  | cons c rest ih =>
    cases rest with
    | nil =>
      simp only [annotate, List.mem_singleton] at h
      simp [h]
    | cons dd rest2 =>
      simp only [annotate, List.mem_cons] at h
      rcases h with rfl | hmem
      · exact List.mem_cons_self _ _
      · exact List.mem_cons_of_mem _ (ih hmem)

/-- `tree_walk` (erd.py 229-260): if exactly one child survives the filter,
recurse into it carrying the current entity on the ancestor chain and emit
nothing here; otherwise emit one line — prefix, connector, each ancestor's
decorated name stripped of trailing slashes and joined with `/`, then this
entity's decorated name — and recurse into each surviving child with a fresh
ancestor chain and the extended prefix. -/
def tree_walk (d : Dircolors) (filt : Entity → Bool) (e : Entity) (anc : List Entity)
    (pre ind : String) (last : Bool) : List String :=
  if h : ((Entity.children e).filter filt).length = 1 then
    tree_walk d filt
      (((Entity.children e).filter filt).head
        (by intro hc; rw [hc] at h; exact absurd h (by decide)))
      (anc ++ [e]) pre ind last
  else
    (pre ++ ind ++ String.join (anc.map fun a => rstripSlash (Entity.format d a) ++ "/")
        ++ Entity.format d e)
      :: ((annotate ((Entity.children e).filter filt)).attach.map fun x =>
            tree_walk d filt x.1.1 [] (extendPre pre ind last) x.1.2.1 x.1.2.2).flatten
termination_by sizeOf e.node
decreasing_by
  · exact mem_children_node_lt (List.head_mem _)
  · exact mem_children_node_lt (mem_annotate x.2)

/-- `tree` (erd.py 263-264). -/
def tree (d : Dircolors) (filt : Entity → Bool) (e : Entity) : List String :=
  tree_walk d filt e [] "" "" true

/-- A chain of collapse steps: from `e`, each listed entity in turn has
exactly one filtered-in child, ending at `t`. -/
inductive Collapses (filt : Entity → Bool) : Entity → List Entity → Entity → Prop where
  | refl (e : Entity) : Collapses filt e [] e
  | step (e c : Entity) (es : List Entity) (t : Entity)
      (h : (Entity.children e).filter filt = [c]) (hc : Collapses filt c es t) :
      Collapses filt e (e :: es) t

/-! ## Concrete instances used by witnesses and counterexamples -/

/-- An identity display decorator. -/
def dId : Dircolors := fun s _ => s

/-- The trivial filter: every child survives. -/
def filtTrue : Entity → Bool := fun _ => true

/-- `fnmatch` stub that matches everything. -/
def fnTrue : FnMatch := fun _ _ => true

/-- The chain `/r/a/f`: one directory inside `/r`, one file inside it. -/
def fsChain : FS := .dir [("a", .dir [("f", .regular false)])]

def eRoot : Entity :=
  { path := "/r", dirname := "/", basename := "r", preserve_path := true, node := fsChain }

def eA : Entity := mkChild eRoot ("a", .dir [("f", .regular false)])

def eF : Entity := mkChild eA ("f", .regular false)

/-- A directory holding the directory `a` and the regular file `b`, listed
in that order. -/
def c4fs : FS := .dir [("a", .dir []), ("b", .regular false)]

def c4e : Entity :=
  { path := "/r", dirname := "/", basename := "r", preserve_path := true, node := c4fs }

/-- Modelled from the spec (claim C4): directories sort before files at
every level; once a non-directory appears, no directory may follow. -/
def dirsFirstB : List Entity → Bool
  | [] => true
  | e :: rest => (if isDirB e then true else rest.all fun x => !(isDirB x)) && dirsFirstB rest

/-- A regular (non-directory) entity. -/
def c8file : Entity :=
  { path := "/r/x.log", dirname := "/r", basename := "x.log", preserve_path := false,
    node := .regular false }

/-- The entity whose path `gLit` ignores. -/
def c2e : Entity :=
  { path := "/r/a.log", dirname := "/r", basename := "a.log", preserve_path := false,
    node := .regular false }

/-- A filter whose include pattern matches `c2e` and whose ignore index
vetoes it. -/
def c2f : PathFilter :=
  { «include» := [PathMatch.ofExpr "*.log"], exclude := [], gitignore := some gLit }

/-- A filter with no include or exclude patterns and no ignore index. -/
def pfNoIgnore : PathFilter := { «include» := [], exclude := [], gitignore := none }

/-- A symlink entity. -/
def c10e : Entity :=
  { path := "/r/ln", dirname := "/r", basename := "ln", preserve_path := false,
    node := .symlink "tgt" }

instance : IsTotal Entity (fun a b => keyLE a b = true) := by
  constructor
  have strTot : ∀ x y : List Char, strLeB x y = true ∨ strLeB y x = true := by
    intro x
    induction x with
    | nil => intro y; left; rfl
    | cons c xs ih =>
      intro y
      cases y with
      | nil => right; rfl
      | cons c2 ys =>
        by_cases h1 : charLtB c c2 = true
        · left; simp [strLeB, h1]
        · by_cases h2 : charLtB c2 c = true
          · right; simp [strLeB, h2]
          · rcases ih ys with h | h
            · left; simp [strLeB, h1, h2, h]
            · right; simp [strLeB, h1, h2, h]
  intro a b
  unfold keyLE
  cases ha : isDirB a <;> cases hb : isDirB b <;> simp
  · exact strTot a.basename.data b.basename.data
  · exact strTot a.basename.data b.basename.data

theorem strLeB_trans : ∀ x y z : List Char,
    strLeB x y = true → strLeB y z = true → strLeB x z = true := by
  intro x
  induction x with
  | nil => intro y z _ _; rfl
  | cons c xs ih =>
    intro y z hxy hyz
    cases y with
    | nil => exact absurd hxy (by simp [strLeB])
    | cons c2 ys =>
      cases z with
      | nil => exact absurd hyz (by simp [strLeB])
      | cons c3 zs =>
        simp only [strLeB, charLtB, decide_eq_true_eq] at hxy hyz ⊢
        rcases Nat.lt_trichotomy c.toNat c2.toNat with h12 | h12 | h12
        · rcases Nat.lt_trichotomy c2.toNat c3.toNat with h23 | h23 | h23
          · have h13 : c.toNat < c3.toNat := Nat.lt_trans h12 h23
            simp [h13]
          · have h13 : c.toNat < c3.toNat := h23 ▸ h12
            simp [h13]
          · have h23n : ¬ c2.toNat < c3.toNat := by omega
            simp [h23n, h23] at hyz
        · rcases Nat.lt_trichotomy c2.toNat c3.toNat with h23 | h23 | h23
          · have h13 : c.toNat < c3.toNat := h12 ▸ h23
            simp [h13]
          · have h13n : ¬ c.toNat < c3.toNat := by omega
            have h31n : ¬ c3.toNat < c.toNat := by omega
            have h12n : ¬ c.toNat < c2.toNat := by omega
            have h21n : ¬ c2.toNat < c.toNat := by omega
            have h23n : ¬ c2.toNat < c3.toNat := by omega
            have h32n : ¬ c3.toNat < c2.toNat := by omega
            simp only [h12n, h21n, if_false, if_neg] at hxy
            simp only [h23n, h32n, if_false, if_neg] at hyz
            simp only [h13n, h31n, if_false, if_neg]
            exact ih ys zs hxy hyz
          · have h23n : ¬ c2.toNat < c3.toNat := by omega
            simp [h23n, h23] at hyz
        · have h12n : ¬ c.toNat < c2.toNat := by omega
          simp [h12n, h12] at hxy

instance : IsTrans Entity (fun a b => keyLE a b = true) := by
  constructor
  intro a b c hab hbc
  unfold keyLE at hab hbc ⊢
  cases ha : isDirB a <;> cases hb : isDirB b <;> cases hc : isDirB c <;>
    rw [ha, hb] at hab <;> rw [hb, hc] at hbc <;> simp at hab hbc ⊢ <;>
    try exact strLeB_trans _ _ _ hab hbc

/-! ### Basic lemmas about the matching core -/

theorem sortedSet_mem {r : IgnoreRule} {l : List IgnoreRule} :
    r ∈ sortedSet l ↔ r ∈ l := by
  unfold sortedSet
  rw [(List.perm_insertionSort _ l.dedup).mem_iff, List.mem_dedup]

theorem sortedSet_eq_nil {l : List IgnoreRule} : sortedSet l = [] ↔ l = [] := by
  constructor
  · intro h
    rcases hl : l with _ | ⟨a, l'⟩
    · rfl
    · exfalso
      have : a ∈ sortedSet l := sortedSet_mem.mpr (by rw [hl]; exact List.mem_cons_self a l')
      rw [h] at this
      exact (List.not_mem_nil a) this
  · intro h; rw [h]; rfl

theorem joinedMatch_nil (tm : TranslateMatch) (p : String) : joinedMatch tm [] p = true := rfl

theorem joinedMatch_eq_true {tm : TranslateMatch} {pats : List String} {p : String} :
    joinedMatch tm pats p = true ↔ (pats = [] ∨ ∃ g ∈ pats, tm g p = true) := by
  cases pats with
  | nil => simp [joinedMatch]
  | cons a l =>
    simp only [joinedMatch, List.any_eq_true]
    constructor
    · intro h; exact Or.inr h
    · rintro (h | h)
      · exact absurd h (by simp)
      · exact h

theorem joinedMatch_compiled {tm : TranslateMatch} {l : List IgnoreRule} {p : String} :
    joinedMatch tm ((sortedSet l).map (·.pattern_glob)) p = true ↔
      (l = [] ∨ ∃ r ∈ l, tm r.pattern_glob p = true) := by
  rw [joinedMatch_eq_true]
  constructor
  · rintro (h | ⟨g, hg, hm⟩)
    · exact Or.inl (sortedSet_eq_nil.mp (List.map_eq_nil_iff.mp h))
    · rcases List.mem_map.mp hg with ⟨r, hr, rfl⟩
      exact Or.inr ⟨r, sortedSet_mem.mp hr, hm⟩
  · rintro (h | ⟨r, hr, hm⟩)
    · exact Or.inl (by rw [sortedSet_eq_nil.mpr h]; rfl)
    · exact Or.inr ⟨r.pattern_glob, List.mem_map.mpr ⟨r, sortedSet_mem.mpr hr, rfl⟩, hm⟩

/-- C1 (amended): `GitignoreParser.match` returns true iff the path — exactly
as passed, with no relativisation to any root — matches the combined ignore
matcher (an alternation of the sorted, deduplicated ignore patterns, which
matches everything when that set is empty) and does not match the combined
negate matcher (likewise). -/
theorem c1_match_characterisation (tm : TranslateMatch) (g : GitignoreParser) (p : String) :
    GitignoreParser.«match» tm g p = true ↔
      ((g.ignore_rules = [] ∨ ∃ r ∈ g.ignore_rules, tm r.pattern_glob p = true) ∧
       ¬(g.negate_rules = [] ∨ ∃ r ∈ g.negate_rules, tm r.pattern_glob p = true)) := by
  unfold GitignoreParser.«match» GitignoreParser.compile_patterns
  rcases hA : joinedMatch tm ((sortedSet g.ignore_rules).map (·.pattern_glob)) p with _ | _
  · simp only [hA, Bool.false_eq_true, if_false]
    constructor
    · intro h; exact absurd h (by simp)
    · rintro ⟨h1, _⟩
      exact absurd (joinedMatch_compiled.mpr h1) (by rw [hA]; simp)
  · simp only [hA, if_true]
    rw [Bool.not_eq_true']
    constructor
    · intro h
      refine ⟨joinedMatch_compiled.mp hA, fun hc => ?_⟩
      rw [joinedMatch_compiled.mpr hc] at h
      exact absurd h (by simp)
    · rintro ⟨_, h2⟩
      rcases hB : joinedMatch tm ((sortedSet g.negate_rules).map (·.pattern_glob)) p with _ | _
      · exact hB
      · exact absurd (joinedMatch_compiled.mp hB) h2


/-- C1 counterexample: for the index `gLit` with root `/r` and query
`/r/a.log`, the code's `match` (which tests the path exactly as passed)
returns true, while the claim's query — the same combined matchers applied to
the path made relative to the root, as the spec demands — returns false.
Hence `match` does not test paths relative to the discovered root. -/
theorem c1_counterexample :
    GitignoreParser.«match» tmLiteral gLit "/r/a.log" = true ∧
    specMatchRelative tmLiteral gLit "/r" "/r/a.log" = false ∧
    relativeToRoot "/r" "/r/a.log" = "a.log" := by
  refine ⟨by decide, by decide, by decide⟩

/-- C6: a parser holding at least one ignore rule and no negation rules
reports *no* path as ignored: the empty negate list is joined into the empty
regex, `re.match("", p)` succeeds for every `p`, so the negate check always
fires. -/
theorem c6_empty_negate_never_matches (tm : TranslateMatch) (g : GitignoreParser) (p : String)
    (h1 : g.ignore_rules ≠ []) (h2 : g.negate_rules = []) :
    GitignoreParser.«match» tm g p = false := by
  unfold GitignoreParser.«match» GitignoreParser.compile_patterns
  rw [sortedSet_eq_nil.mpr h2]
  simp [joinedMatch]


theorem c6_empty_negate_never_matches_witness :
    gNoNeg.ignore_rules ≠ [] ∧ gNoNeg.negate_rules = [] ∧
    GitignoreParser.«match» tmLiteral gNoNeg "/r/x" = false :=
  ⟨by decide, rfl, c6_empty_negate_never_matches tmLiteral gNoNeg "/r/x" (by decide) rfl⟩

/-! ### Tree-walk unfolding lemmas -/

theorem tree_walk_collapse {d : Dircolors} {filt : Entity → Bool} {e c : Entity}
    {anc : List Entity} {pre ind : String} {last : Bool}
    (h : (Entity.children e).filter filt = [c]) :
    tree_walk d filt e anc pre ind last = tree_walk d filt c (anc ++ [e]) pre ind last := by
  rw [tree_walk.eq_def]
  simp [h]

theorem tree_walk_emit {d : Dircolors} {filt : Entity → Bool} {e : Entity} {anc : List Entity}
    {pre ind : String} {last : Bool}
    (h : ((Entity.children e).filter filt).length ≠ 1) :
    tree_walk d filt e anc pre ind last =
      (pre ++ ind ++ String.join (anc.map fun a => rstripSlash (Entity.format d a) ++ "/")
          ++ Entity.format d e)
        :: ((annotate ((Entity.children e).filter filt)).attach.map fun x =>
              tree_walk d filt x.1.1 [] (extendPre pre ind last) x.1.2.1 x.1.2.2).flatten := by
  rw [tree_walk.eq_def]
  rw [dif_neg h]

theorem flatten_annotate_nil (d : Dircolors) (filt : Entity → Bool) (pre2 : String)
    {l : List Entity} (hl : l = []) :
    ((annotate l).attach.map fun x =>
      tree_walk d filt x.1.1 [] pre2 x.1.2.1 x.1.2.2).flatten = [] := by
  subst hl
  rfl

theorem walk_chain (d : Dircolors) (filt : Entity → Bool) (pre ind : String) (last : Bool)
    {e : Entity} {es : List Entity} {t : Entity} (h : Collapses filt e es t) :
    ∀ anc : List Entity,
      tree_walk d filt e anc pre ind last = tree_walk d filt t (anc ++ es) pre ind last := by
  induction h with
  | refl e => intro anc; simp
  | step e c es t hstep hcol ih =>
    intro anc
    rw [tree_walk_collapse hstep, ih (anc ++ [e]), List.append_assoc]
    rfl

/-! ### Claim theorems -/

/-- C2: the ignore index is the final veto of `PathFilter.__call__`: whenever
the configured index reports the entity's path as ignored, the filter returns
false regardless of the include and exclude patterns; and an empty include
list passes every entity through the include stage. -/
theorem c2_ignore_veto (fn : FnMatch) (tm : TranslateMatch) (f : PathFilter) (e : Entity)
    (g : GitignoreParser) (hg : f.gitignore = some g)
    (hm : GitignoreParser.«match» tm g e.path = true) :
    PathFilter.call fn tm f e = false ∧ includeStage fn [] e = true := by
  constructor
  · unfold PathFilter.call ignoreStage
    rw [hg]
    rcases hrt : excludeStage fn f.exclude e (includeStage fn f.«include» e) with _ | _
    · simp
    · simp [hm]
  · simp [includeStage]

theorem c2_ignore_veto_witness :
    c2f.gitignore = some gLit ∧
    GitignoreParser.«match» tmLiteral gLit c2e.path = true ∧
    PathMatch.call fnTrue (PathMatch.ofExpr "*.log") c2e = true ∧
    PathFilter.call fnTrue tmLiteral c2f c2e = false :=
  ⟨rfl, by decide, by decide,
   (c2_ignore_veto fnTrue tmLiteral c2f c2e gLit rfl (by decide)).1⟩

/-- C3: along a chain of directories each with exactly one filtered-in child,
the walk emits no line per chained directory; the first line emitted is the
terminal entity's line carrying all chained names slash-joined before it, and
when the terminal has no surviving children that line is the entire output
(for a chain of N directories the line joins N+1 decorated names). -/
theorem c3_single_child_collapse (d : Dircolors) (filt : Entity → Bool) (pre ind : String)
    (last : Bool) (e : Entity) (es : List Entity) (t : Entity)
    (hchain : Collapses filt e es t)
    (hstop : ((Entity.children t).filter filt).length ≠ 1) :
    ∃ rest, tree_walk d filt e [] pre ind last =
        (pre ++ ind ++ String.join (es.map fun a => rstripSlash (Entity.format d a) ++ "/")
          ++ Entity.format d t) :: rest ∧
      ((Entity.children t).filter filt = [] → rest = []) := by
  have h1 := walk_chain d filt pre ind last hchain []
  rw [List.nil_append] at h1
  rw [tree_walk_emit hstop] at h1
  exact ⟨_, h1, fun hnil => flatten_annotate_nil d filt _ hnil⟩

theorem c3_single_child_collapse_witness :
    tree_walk dId filtTrue eRoot [] "" "" true = ["/r/a/f"] := by
  obtain ⟨rest, h1, h2⟩ := c3_single_child_collapse dId filtTrue "" "" true eRoot [eRoot, eA] eF
    (Collapses.step _ _ _ _ rfl (Collapses.step _ _ _ _ rfl (Collapses.refl _)))
    (by decide)
  rw [h2 rfl] at h1
  rw [h1]
  rfl

/-- C4 (amended): `Entity.children` returns a permutation of the raw listing
that is sorted by the code's key order — every *non-directory* before every
directory, ties broken by base name in code-point order (`keyLE`): Python's
ascending sort of `(S_ISDIR, basename)` places `False` (files) first. -/
theorem c4_children_sorted (e : Entity) :
    List.Sorted (fun a b => keyLE a b = true) (Entity.children e) ∧
    (Entity.children e).Perm e.childrenRaw :=
  ⟨List.sorted_insertionSort _ _, List.perm_insertionSort _ _⟩

/-- C4 counterexample: a directory listing the subdirectory `a` and the
regular file `b` yields children `[b, a]` — the non-directory first — so the
claimed directories-before-files order (`dirsFirstB`) is violated. -/
theorem c4_counterexample :
    (Entity.children c4e).map (fun c => (isDirB c, c.basename)) = [(false, "b"), (true, "a")] ∧
    dirsFirstB (Entity.children c4e) = false :=
  ⟨rfl, rfl⟩

theorem find_git_toplevel_none (hasGit : GPath → Bool) :
    ∀ (n : Nat) (p : GPath), p.length ≤ n → (∀ q : GPath, q <+: p → hasGit q = false) →
      find_git_toplevel hasGit p = none := by
  intro n
  induction n with
  | zero =>
    intro p hl hq
    have hp : p = [] := List.length_eq_zero.mp (Nat.le_zero.mp hl)
    subst hp
    rw [find_git_toplevel.eq_def]
    simp [hq [] List.nil_prefix]
  | succ n ih =>
    intro p hl hq
    rw [find_git_toplevel.eq_def]
    rw [hq p (List.prefix_refl p)]
    simp only [Bool.false_eq_true, if_false]
    by_cases hp : p = []
    · simp [hp]
    · rw [dif_neg hp]
      refine ih p.dropLast ?_ (fun q hpre => hq q (hpre.trans (List.dropLast_prefix p)))
      have := List.length_pos.mpr hp
      rw [List.length_dropLast]
      omega

/-- C5 (amended): the engine's root discovery (`find_git_toplevel`) consults
no environment override, home directory, or ceiling directories: it succeeds
at any starting directory carrying the `.git` marker, fails exactly when no
ancestor (up to and including the filesystem root `[]`) carries the marker,
and when discovery fails the filter is built with `gitignore := none`, so the
ignore stage passes every entity unchanged. -/
theorem c5_root_discovery (hasGit : GPath → Bool) (p : GPath) :
    (hasGit p = true → find_git_toplevel hasGit p = some p) ∧
    ((∀ q : GPath, q <+: p → hasGit q = false) → find_git_toplevel hasGit p = none) ∧
    (∀ (fn : FnMatch) (tm : TranslateMatch) (f : PathFilter) (e : Entity),
      f.gitignore = none →
      PathFilter.call fn tm f e =
        excludeStage fn f.exclude e (includeStage fn f.«include» e)) := by
  refine ⟨?_, ?_, ?_⟩
  · intro h
    rw [find_git_toplevel.eq_def]
    simp [h]
  · exact find_git_toplevel_none hasGit p.length p (Nat.le_refl _)
  · intro fn tm f e hg
    simp [PathFilter.call, ignoreStage, hg]

theorem c5_root_discovery_witness :
    find_git_toplevel hasGitA ["r", "s"] = some ["r", "s"] ∧
    find_git_toplevel hasGitA [] = none ∧
    PathFilter.call fnTrue tmLiteral pfNoIgnore c2e =
      excludeStage fnTrue pfNoIgnore.exclude c2e (includeStage fnTrue pfNoIgnore.«include» c2e) :=
  ⟨(c5_root_discovery hasGitA ["r", "s"]).1 (by decide),
   (c5_root_discovery hasGitA []).2.1 (fun q hq => by rw [List.prefix_nil.mp hq]; rfl),
   (c5_root_discovery hasGitA []).2.2 fnTrue tmLiteral pfNoIgnore c2e rfl⟩

/-- C5 counterexample: with an explicit work-tree override `/w` set, the
spec's discovery returns `/w` while the code returns the marker directory
`/r/s`; and with a marker at `/home` above the home directory `/home/u`, the
spec's discovery fails at the home boundary while the code walks past it and
returns `/home`.  The code honours neither the override nor the boundaries. -/
theorem c5_counterexample :
    specFindRoot (some ["w"]) none ["home", "u"] [] hasGitA ["r", "s"] = some ["w"] ∧
    find_git_toplevel hasGitA ["r", "s"] = some ["r", "s"] ∧
    (some ["w"] : Option GPath) ≠ some ["r", "s"] ∧
    specFindRoot none none ["home", "u"] [] hasGitB ["home", "u", "x"] = none ∧
    find_git_toplevel hasGitB ["home", "u", "x"] = some ["home"] := by
  refine ⟨rfl, ?_, by decide, ?_, ?_⟩
  · simp [find_git_toplevel, hasGitA]
  · simp [specFindRoot, specWalk, hasGitB]
  · simp [find_git_toplevel, hasGitB]

/-- C7 (amended): the rule lists start as class attributes shared by every
instance, but only until `_compile_patterns` runs: an append performed while
the acting instance still reads the class attribute lands in the shared class
list and is observed by every instance (present or future) that also still
reads the class attribute; once an instance has compiled, its lists are
instance-level copies, and its appends are invisible to every other
instance. -/
theorem c7_class_attribute_sharing (st : PyAttrState) (i j : Nat) (r : IgnoreRule) :
    (r.is_negation_rule = false →
      (st.instIgnore i = none → st.instIgnore j = none →
        observedIgnore (addRuleOn st i r) j = observedIgnore st j ++ [r]) ∧
      (∀ l, st.instIgnore i = some l → j ≠ i →
        observedIgnore (addRuleOn st i r) j = observedIgnore st j)) ∧
    (r.is_negation_rule = true →
      (st.instNegate i = none → st.instNegate j = none →
        observedNegate (addRuleOn st i r) j = observedNegate st j ++ [r]) ∧
      (∀ l, st.instNegate i = some l → j ≠ i →
        observedNegate (addRuleOn st i r) j = observedNegate st j)) := by
  constructor
  · intro hneg
    constructor
    · intro hi hj
      simp [addRuleOn, observedIgnore, hneg, hi, hj]
    · intro l hi hji
      simp [addRuleOn, observedIgnore, hneg, hi, hji]
  · intro hneg
    constructor
    · intro hi hj
      simp [addRuleOn, observedNegate, hneg, hi, hj]
    · intro l hi hji
      simp [addRuleOn, observedNegate, hneg, hi, hji]

theorem c7_class_attribute_sharing_witness :
    observedIgnore (addRuleOn pyStart 0 rSample) 1 = observedIgnore pyStart 1 ++ [rSample] :=
  ((c7_class_attribute_sharing pyStart 0 1 rSample).1 rfl).1 rfl rfl

/-- C7 counterexample: after instance 0 has compiled its patterns (installing
instance-level rule lists), a rule added through instance 0 is *not* observed
by instance 1 — while the same append on the fresh state is.  Rules therefore
do not unconditionally accumulate across instances. -/
theorem c7_counterexample :
    rSample ∉ observedIgnore (addRuleOn (compileOn pyStart 0) 0 rSample) 1 ∧
    rSample ∈ observedIgnore (addRuleOn pyStart 0 rSample) 1 := by
  constructor
  · decide
  · decide

/-- C8: a pattern expression with a trailing slash is directory-only — the
slash is stripped into `pattern` and recorded as the `is_dir` flag — and its
match against any non-directory entity is false for every glob body and
every behaviour of the underlying `fnmatch`. -/
theorem c8_dir_only_pattern (fn : FnMatch) (expression : String) (e : Entity)
    (hslash : strEndsWith expression "/" = true) (hnd : isDirB e = false) :
    PathMatch.call fn (PathMatch.ofExpr expression) e = false := by
  unfold PathMatch.call PathMatch.ofExpr
  simp [hslash, hnd]

theorem c8_dir_only_pattern_witness :
    strEndsWith "build/" "/" = true ∧ isDirB c8file = false ∧
    PathMatch.call fnTrue (PathMatch.ofExpr "build/") c8file = false :=
  ⟨by decide, rfl, c8_dir_only_pattern fnTrue "build/" c8file (by decide) rfl⟩

/-- C9 (amended): only the *default* global ignore file is skipped silently,
and only on `FileNotFoundError`; a permission error reading a discovered rule
file propagates out of `parse_rule_files` as a fatal exception instead of
being skipped. -/
theorem c9_rule_file_errors (rfp : RulesFromPattern) (readF : ReadFile)
    (g g2 : GitignoreParser) (base default f : String)
    (hperm : readF f = .error .permissionDenied)
    (hnf : readF default = .error .fileNotFound) :
    parse_rule_files rfp readF [f] g base false default = .error .permissionDenied ∧
    parse_rule_files rfp readF [] g2 base true default = .ok g2 := by
  constructor
  · have hs : sortStrings [f] = [f] := rfl
    simp [parse_rule_files, hs, parse_rule_file, hperm]
  · simp [parse_rule_files, parse_rule_file, hnf, sortStrings]

theorem c9_rule_file_errors_witness :
    readPerm "/r/sub/.gitignore" = .error .permissionDenied ∧
    readPerm "/cfg/git/gitignore" = .error .fileNotFound ∧
    parse_rule_files rfpNone readPerm ["/r/sub/.gitignore"] ⟨[], []⟩ "/r" false "/cfg/git/gitignore"
      = .error .permissionDenied ∧
    parse_rule_files rfpNone readPerm [] ⟨[], []⟩ "/r" true "/cfg/git/gitignore"
      = .ok ⟨[], []⟩ := by
  have h := c9_rule_file_errors rfpNone readPerm ⟨[], []⟩ ⟨[], []⟩ "/r" "/cfg/git/gitignore"
    "/r/sub/.gitignore" rfl rfl
  exact ⟨rfl, rfl, h.1, h.2⟩

/-- C9 counterexample: on the state where the single discovered rule file
raises a permission error, rule collection does not skip it and continue with
an unchanged parser — it aborts with the error. -/
theorem c9_counterexample :
    parse_rule_files rfpNone readPerm ["/r/sub/.gitignore"] ⟨[], []⟩ "/r" false "/cfg/git/gitignore"
      = .error .permissionDenied ∧
    (Except.error PyErr.permissionDenied
      ≠ (Except.ok { ignore_rules := [], negate_rules := [] } : Except PyErr GitignoreParser)) :=
  ⟨rfl, fun h => Except.noConfusion h⟩

/-- C10: a symlink entity is a leaf of the walk — its children listing is
empty even though the target may name a directory, so the target is never
traversed — and it renders as its decorated name suffixed with `@ -> `
followed by the decorated target; its walk output is exactly one line. -/
theorem c10_symlink_leaf (d : Dircolors) (filt : Entity → Bool) (e : Entity) (t : String)
    (anc : List Entity) (pre ind : String) (last : Bool) (hn : e.node = .symlink t) :
    Entity.children e = [] ∧
    Entity.format d e =
      (if e.preserve_path then d e.path none
       else d e.basename (if e.dirname ≠ "" then some e.dirname else none)) ++ "@ -> "
        ++ d t (if e.preserve_path then none
                else if e.dirname ≠ "" then some e.dirname else none) ∧
    tree_walk d filt e anc pre ind last =
      [pre ++ ind ++ String.join (anc.map fun a => rstripSlash (Entity.format d a) ++ "/")
        ++ Entity.format d e] := by
  rcases e with ⟨p, dn, bn, pp, node⟩
  replace hn : node = FS.symlink t := hn
  subst hn
  refine ⟨rfl, ?_, ?_⟩
  · cases pp <;> rfl
  have hfil : (Entity.children ⟨p, dn, bn, pp, FS.symlink t⟩).filter filt = [] := rfl
  rw [tree_walk_emit (by rw [hfil]; decide)]
  rw [flatten_annotate_nil d filt _ hfil]

theorem c10_symlink_leaf_witness :
    Entity.children c10e = [] ∧
    Entity.format dId c10e = "ln@ -> tgt" ∧
    tree_walk dId filtTrue c10e [] "" "" true = ["ln@ -> tgt"] := by
  obtain ⟨h1, h2, h3⟩ := c10_symlink_leaf dId filtTrue c10e "tgt" [] "" "" true rfl
  exact ⟨h1, h2.trans (by rfl), h3.trans (by rfl)⟩
